import Mathlib

/-!
A shallow embedding of the ssm-cache caching layer (`src/ssm_cache/cache.py`):
the `Refreshable` policy, `SSMParameter` (single-key cache),
`SSMParameterGroup` (batched group cache), the `_batch` helper and the
`refresh_on_error` retry wrapper, together with theorems settling the
specification claims about them.

Machine conventions: `datetime.utcnow()` is passed explicitly as an integer
`now` (seconds); Python exceptions become explicit error values returned next
to the mutated state; the one group and all parameter objects live in an
explicit world (`GWorld`) whose heap indexes stand for Python object identity.
-/

namespace SSMCache

/-- Python-level exceptions raised by the cache module. -/
inductive PyError where
  | invalidParam (msg : String)
  | valueError (msg : String)
deriving DecidableEq

instance {ε α : Type} [DecidableEq ε] [DecidableEq α] : DecidableEq (Except ε α) :=
  fun x y =>
    match x, y with
    | .ok a, .ok b =>
      if h : a = b then isTrue (by rw [h]) else isFalse (fun hc => h (Except.ok.inj hc))
    | .error a, .error b =>
      if h : a = b then isTrue (by rw [h]) else isFalse (fun hc => h (Except.error.inj hc))
    | .ok _, .error _ => isFalse (fun hc => Except.noConfusion hc)
    | .error _, .ok _ => isFalse (fun hc => Except.noConfusion hc)

/-- A remote call issued to the SSM client. -/
inductive RemoteCall where
  | getParameter (name : String) (withDecryption : Bool)
  | getParameters (names : List String) (withDecryption : Bool)
deriving DecidableEq

/-- The names carried by a remote call. -/
def RemoteCall.names : RemoteCall → List String
  | .getParameter n _ => [n]
  | .getParameters ns _ => ns

/-- The remote parameter store: maps a name to its value when the store knows
the name, `none` when the store reports it invalid / not found. -/
abbrev Store := String → Option String

/-- State installed by `Refreshable.__init__`: `_last_refresh_time` (starts
`None`) and `_max_age`. Durations and instants are integers (seconds);
`_max_age_delta = timedelta(seconds=max_age or 0)` is recomputed at use
sites as `max_age.getD 0`. -/
structure RefreshableState where
  last_refresh_time : Option Int
  max_age : Option Int
deriving DecidableEq

/-- The Python truthiness test `not self._max_age`: true when `_max_age` is
`None` or `0`. -/
def maxAgeFalsy : Option Int → Bool
  | none => true
  | some n => n == 0

/-- Python `Refreshable._should_refresh`, with the current `datetime.utcnow()`
passed as `now`. A stored `datetime` is always truthy in Python, so
`not self._last_refresh_time` is exactly the `none` test. -/
def RefreshableState.should_refresh (s : RefreshableState) (now : Int) : Bool :=
  if maxAgeFalsy s.max_age then false
  else
    match s.last_refresh_time with
    | none => true
    | some t => decide (now > t + s.max_age.getD 0)

/-- An `SSMParameter` object. `in_group` models `self._group` being set (all
grouped parameters of a world belong to the world's one group). -/
structure SSMParameter where
  refreshable : RefreshableState
  name : String
  value : Option String
  with_decryption : Bool
  in_group : Bool
deriving DecidableEq

/-- Python `SSMParameter.__init__`: `if not param_name: raise ValueError`, then the
field setup (`_value = None`, `_group = None`). -/
def SSMParameter.mkParam (param_name : String) (max_age : Option Int)
    (with_decryption : Bool) : Except PyError SSMParameter :=
  if param_name = "" then .error (.valueError "Must specify name")
  else .ok ⟨⟨none, max_age⟩, param_name, none, with_decryption, false⟩

/-- The `SSMParameterGroup` state: its own `Refreshable` state, the group default
`_with_decryption`, and `_parameters`, an insertion-ordered dict from a name
to the heap index of the member object. -/
structure GroupState where
  refreshable : RefreshableState
  with_decryption : Bool
  parameters : List (String × Nat)
deriving DecidableEq

/-- Python dict assignment `d[k] = v`: replaces the entry in place when the
key exists, appends otherwise. -/
def dictSet : List (String × Nat) → String → Nat → List (String × Nat)
  | [], k, v => [(k, v)]
  | (k', v') :: rest, k, v =>
    if k' = k then (k, v) :: rest else (k', v') :: dictSet rest k v

/-- Python dict lookup `d[k]`, as an option. -/
def dictGet (d : List (String × Nat)) (k : String) : Option Nat :=
  (d.find? (fun e => e.1 == k)).map (fun e => e.2)

/-- A world: the heap of every `SSMParameter` object created so far (indexed
by position, standing for object identity) and the one `SSMParameterGroup`.
Objects displaced from the group dict stay on the heap. -/
structure GWorld where
  params : List SSMParameter
  group : GroupState
deriving DecidableEq

/-- Read the heap object at index `i`. -/
def GWorld.getParam (w : GWorld) (i : Nat) : Option SSMParameter :=
  w.params.get? i

/-- Overwrite the heap object at index `i`. -/
def GWorld.setParam (w : GWorld) (i : Nat) (p : SSMParameter) : GWorld :=
  { w with params := w.params.set i p }

/-- The arguments of one call to `SSMParameterGroup.parameter(*args, **kwargs)`.
`max_age` may arrive positionally (second positional argument) or as a
keyword; only the keyword form is visible to the `'max_age' in kwargs` check
in the source. -/
structure ParamCall where
  param_name : String
  max_age_pos : Option Int
  max_age_kw : Option Int
  with_decryption_kw : Option Bool
deriving DecidableEq

/-- Python `SSMParameterGroup.parameter`: raises on a keyword `max_age`, defaults
`with_decryption` to the group default, constructs the `SSMParameter`, sets
its `_group` back-reference, and registers it under `parameter._name`
(replacing any member of the same name). Returns the new heap index. -/
def GWorld.parameter (w : GWorld) (c : ParamCall) : Except PyError (GWorld × Nat) :=
  if c.max_age_kw.isSome then
    .error (.valueError "max_age cant be set individually for grouped parameters")
  else
    match SSMParameter.mkParam c.param_name c.max_age_pos
        (c.with_decryption_kw.getD w.group.with_decryption) with
    | .error e => .error e
    | .ok p =>
      let q := { p with in_group := true }
      .ok ({ params := w.params ++ [q],
             group := { w.group with
               parameters := dictSet w.group.parameters q.name w.params.length } },
           w.params.length)

/-- Python `_batch(iterable, n)`: `l = len(iterable)`, then
`for ndx in range(0, l, n): yield iterable[ndx:min(ndx + n, l)]`.
`List.range' 0 ((l + n - 1) / n) n` enumerates exactly the `ndx` values of
`range(0, l, n)`, and the slice `iterable[ndx:ndx + n]` is
`(xs.drop ndx).take n`. The source only ever calls this with `n = 10`
(`range` with step `0` would raise in Python). -/
def pyBatch (xs : List α) (n : Nat) : List (List α) :=
  (List.range' 0 ((xs.length + n - 1) / n) n).map (fun ndx => (xs.drop ndx).take n)

/-- The call `ssm_client.get_parameters(Names=names, WithDecryption=wd)`: the found
parameters (in request order) and the invalid names. -/
def get_parameters (store : Store) (names : List String) :
    List (String × String) × List String :=
  (names.filterMap (fun n => (store n).map (fun v => (n, v))),
   names.filter (fun n => (store n).isNone))

/-- Assign `_value` on the heap object at index `i`. -/
def setValueAt : List SSMParameter → Nat → String → List SSMParameter
  | [], _, _ => []
  | p :: ps, 0, v => { p with value := some v } :: ps
  | p :: ps, i + 1, v => p :: setValueAt ps i v

/-- The response loop `for item in response['Parameters']:
self._parameters[item['Name']]._value = item['Value']`. Every returned name
was requested, hence is a dict key; an absent key is a no-op here because the
source can never reach it. -/
def applyFound (w : GWorld) : List (String × String) → GWorld
  | [] => w
  | (n, v) :: rest =>
    applyFound
      (match dictGet w.group.parameters n with
       | some i => { w with params := setValueAt w.params i v }
       | none => w) rest

/-- Iteration `six.itervalues(self._parameters)`: the member objects in dict order. -/
def GWorld.memberValues (w : GWorld) : List SSMParameter :=
  w.group.parameters.filterMap (fun e => w.params.get? e.2)

/-- The list `[p._name for p in six.itervalues(self._parameters)]`. -/
def GWorld.memberNames (w : GWorld) : List String :=
  w.memberValues.map (fun p => p.name)

/-- The batch loop of `SSMParameterGroup._refresh`, accumulating the invalid
names and the remote-call trace across batches. -/
def batchLoop (store : Store) (wd : Bool) :
    GWorld → List String → List RemoteCall → List (List String) →
    GWorld × List String × List RemoteCall
  | w, inv, tr, [] => (w, inv, tr)
  | w, inv, tr, b :: bs =>
    batchLoop store wd (applyFound w (get_parameters store b).1)
      (inv ++ (get_parameters store b).2)
      (tr ++ [RemoteCall.getParameters b wd]) bs

/-- Python `SSMParameterGroup._refresh`: group-wide decryption flag as the `any`
over members, member names in dict order, one `get_parameters` per batch of
10, in-place update of every returned value, and an `InvalidParam` carrying
the comma-joined invalid names when any batch reported one. Returns the
mutated world, the raised error if any, and the remote-call trace. -/
def GWorld.group_refresh_inner (store : Store) (w : GWorld) :
    GWorld × Option PyError × List RemoteCall :=
  let wd := w.memberValues.any (fun p => p.with_decryption)
  let r := batchLoop store wd w [] [] (pyBatch w.memberNames 10)
  if r.2.1.isEmpty then (r.1, none, r.2.2)
  else (r.1, some (.invalidParam (String.intercalate "," r.2.1)), r.2.2)

/-- Python `Refreshable.refresh` on the group: `self._refresh()`, then — only when
it did not raise — `self._last_refresh_time = datetime.utcnow()`. -/
def GWorld.group_refresh (store : Store) (now : Int) (w : GWorld) :
    GWorld × Option PyError × List RemoteCall :=
  let r := GWorld.group_refresh_inner store w
  match r.2.1 with
  | some e => (r.1, some e, r.2.2)
  | none =>
    ({ r.1 with group := { r.1.group with
        refreshable := { r.1.group.refreshable with last_refresh_time := some now } } },
     none, r.2.2)

/-- Python `SSMParameter._refresh` for the object at heap index `i`: when grouped,
`return self._group.refresh()`; otherwise one `get_parameter` call whose
`ParameterNotFound` is converted into `InvalidParam(self.name)`. -/
def GWorld.param_refresh_inner (store : Store) (now : Int) (w : GWorld) (i : Nat) :
    GWorld × Option PyError × List RemoteCall :=
  match w.getParam i with
  | none => (w, none, [])
  | some p =>
    if p.in_group then GWorld.group_refresh store now w
    else
      match store p.name with
      | some v =>
        (w.setParam i { p with value := some v }, none,
         [RemoteCall.getParameter p.name p.with_decryption])
      | none =>
        (w, some (.invalidParam p.name),
         [RemoteCall.getParameter p.name p.with_decryption])

/-- Python `Refreshable.refresh` on a single parameter: `self._refresh()`, then —
only when it did not raise — set this object's `_last_refresh_time`. -/
def GWorld.param_refresh (store : Store) (now : Int) (w : GWorld) (i : Nat) :
    GWorld × Option PyError × List RemoteCall :=
  let r := GWorld.param_refresh_inner store now w i
  match r.2.1 with
  | some e => (r.1, some e, r.2.2)
  | none =>
    match r.1.getParam i with
    | none => (r.1, none, r.2.2)
    | some p =>
      (r.1.setParam i { p with refreshable :=
          { p.refreshable with last_refresh_time := some now } },
       none, r.2.2)

/-- The `SSMParameter.value` property: `if self._value is None or
self._should_refresh(): self.refresh()`, then `return self._value`. Returns
the world, a raised error if any, the returned value, and the remote-call
trace. -/
def GWorld.param_value (store : Store) (now : Int) (w : GWorld) (i : Nat) :
    GWorld × Option PyError × Option String × List RemoteCall :=
  match w.getParam i with
  | none => (w, none, none, [])
  | some p =>
    if p.value.isNone || p.refreshable.should_refresh now then
      let r := GWorld.param_refresh store now w i
      match r.2.1 with
      | some e => (r.1, some e, none, r.2.2)
      | none => (r.1, none, (r.1.getParam i).bind (fun q => q.value), r.2.2)
    else (w, none, p.value, [])

/-- Events observable from one call to a closure produced by
`SSMParameter.refresh_on_error`: an invocation of the wrapped `func` (with
the retry keyword argument it received, `none` when absent), the forced
`self.refresh()`, and the `error_callback()` invocation. -/
inductive WrapEvent where
  | call (retry_kwarg : Option Bool)
  | refreshed
  | callback
deriving DecidableEq

/-- One call of the `wrapped` closure from `SSMParameter.refresh_on_error` on
the parameter at heap index `i`. `func` sees the current world (the cached
values it depends on) and the retry keyword argument; `isError` models
membership in `error_class`; `has_callback` models `callable(error_callback)`.
If the forced `self.refresh()` itself raises, that error propagates and
neither the callback nor the retry happens. -/
def refresh_on_error_call (store : Store) (now : Int) (w : GWorld) (i : Nat)
    (func : GWorld → Option Bool → Except PyError α)
    (isError : PyError → Bool) (has_callback : Bool) (kwarg0 : Option Bool) :
    GWorld × Except PyError α × List WrapEvent :=
  match func w kwarg0 with
  | .ok a => (w, .ok a, [.call kwarg0])
  | .error e =>
    if isError e then
      let r := GWorld.param_refresh store now w i
      match r.2.1 with
      | some e2 => (r.1, .error e2, [.call kwarg0, .refreshed])
      | none =>
        (r.1, func r.1 (some true),
         [WrapEvent.call kwarg0, .refreshed] ++
           (if has_callback then [WrapEvent.callback] else []) ++
           [.call (some true)])
    else (w, .error e, [.call kwarg0])

/-- Well-formedness of a world: dict keys are unique, dict indices are
unique, and every dict entry points at a live heap object carrying the entry
key as its name. Every world grown through `GWorld.parameter` from an empty
group satisfies this. -/
def GWorld.wf (w : GWorld) : Prop :=
  (w.group.parameters.map (fun e => e.1)).Nodup ∧
  (w.group.parameters.map (fun e => e.2)).Nodup ∧
  ∀ e ∈ w.group.parameters,
    (w.params.get? e.2).map (fun p => p.name) = some e.1

instance (w : GWorld) : Decidable w.wf := by
  unfold GWorld.wf; infer_instance

/-- The full found-item list a group refresh applies, over all batches. -/
def foundItems (store : Store) (names : List String) : List (String × String) :=
  names.filterMap (fun n => (store n).map (fun v => (n, v)))

/-- The full invalid-name list a group refresh accumulates, over all batches. -/
def invalidItems (store : Store) (names : List String) : List String :=
  names.filter (fun n => (store n).isNone)

/-! ### Concrete stores and worlds used in closed evaluations -/

/-- A store that knows no names. -/
def storeEmpty : Store := fun _ => none

/-- The empty world: no parameter objects, an empty group. -/
def worldEmpty : GWorld :=
  { params := [],
    group := { refreshable := ⟨none, none⟩, with_decryption := true,
               parameters := [] } }

/-- A group of three members A, B, C at heap indices 0, 1, 2; member B starts
with a cached value. -/
def worldABC : GWorld :=
  { params := [⟨⟨none, none⟩, "A", none, true, true⟩,
               ⟨⟨none, none⟩, "B", some "oldB", true, true⟩,
               ⟨⟨none, none⟩, "C", none, true, true⟩],
    group := { refreshable := ⟨none, some 10⟩, with_decryption := true,
               parameters := [("A", 0), ("B", 1), ("C", 2)] } }

/-- A store knowing A and C but not B. -/
def storeAC : Store :=
  fun n => if n = "A" then some "va" else if n = "C" then some "vc" else none

/-- A store knowing all of A, B, C. -/
def storeABC : Store :=
  fun n =>
    if n = "A" then some "va"
    else if n = "B" then some "vb"
    else if n = "C" then some "vc" else none

/-- One grouped member `a` with a cached value, inside a group whose shared
policy (max_age 1, last refreshed at 0) is long stale. -/
def worldGrouped : GWorld :=
  { params := [⟨⟨none, none⟩, "a", some "v", true, true⟩],
    group := { refreshable := ⟨some 0, some 1⟩, with_decryption := true,
               parameters := [("a", 0)] } }

/-- A store with a fresh value for `a`. -/
def storeLowerA : Store := fun n => if n = "a" then some "new" else none

/-- One standalone (ungrouped) parameter `key` with `max_age = 10`. -/
def worldStandalone : GWorld :=
  { params := [⟨⟨none, some 10⟩, "key", none, true, false⟩],
    group := worldEmpty.group }

/-- A store knowing `key`. -/
def storeKey : Store := fun n => if n = "key" then some "fresh" else none

/-- The world `worldGrouped` after re-registering the name `a`: the displaced old
object stays at heap index 0, the replacing member sits at index 1 and owns
the dict entry. -/
def worldGrouped2 : GWorld :=
  { params := [⟨⟨none, none⟩, "a", some "v", true, true⟩,
               ⟨⟨none, none⟩, "a", none, true, true⟩],
    group := { refreshable := ⟨some 0, some 1⟩, with_decryption := true,
               parameters := [("a", 1)] } }

/-- A wrapped operation that fails unless the retry keyword argument is set:
it models a consumer that rejects the stale cached value on the first call
and succeeds on the retried one. -/
def funcFlaky : GWorld → Option Bool → Except PyError Nat :=
  fun _ k =>
    match k with
    | some true => .ok 42
    | _ => .error (.invalidParam "stale value rejected")

/-- A group with 25 members p0 .. p24. -/
def world25 : GWorld :=
  { params := (List.range 25).map
      (fun k => ⟨⟨none, none⟩, "p" ++ toString k, none, true, true⟩),
    group := { refreshable := ⟨none, some 10⟩, with_decryption := true,
               parameters := (List.range 25).map
                 (fun k => ("p" ++ toString k, k)) } }

/-! ### Lemmas about `pyBatch` -/

theorem pyBatch_nil {α : Type} (n : Nat) : pyBatch ([] : List α) n = [] := by
  unfold pyBatch
  have h0 : ((List.nil (α := α)).length + n - 1) / n = 0 := by
    simp only [List.length_nil, Nat.zero_add]
    rcases Nat.eq_zero_or_pos n with h | h
    · simp [h]
    · exact Nat.div_eq_of_lt (by omega)
  rw [h0]
  rfl

theorem pyBatch_slice_shift {α : Type} (xs : List α) (n : Nat) :
    ∀ (k s : Nat),
      (List.range' (s + n) k n).map (fun ndx => (xs.drop ndx).take n) =
        (List.range' s k n).map (fun ndx => (((xs.drop n).drop ndx)).take n) := by
  intro k
  induction k with
  | zero => intro s; simp
  | succ m ih =>
    intro s
    rw [List.range'_succ, List.range'_succ, List.map_cons, List.map_cons, ih (s + n)]
    have hd : xs.drop (s + n) = (xs.drop n).drop s := by
      rw [List.drop_drop, Nat.add_comm]
    rw [hd]

theorem pyBatch_cons_eq {α : Type} {xs : List α} {n : Nat}
    (hx : xs ≠ []) (hn : 0 < n) :
    pyBatch xs n = xs.take n :: pyBatch (xs.drop n) n := by
  have hl : 1 ≤ xs.length := List.length_pos.mpr hx
  have key : (xs.length + n - 1) / n = ((xs.length - n) + n - 1) / n + 1 := by
    rcases le_or_lt xs.length n with h | h
    · have h0 : xs.length - n = 0 := by omega
      have e1 : xs.length + n - 1 = (xs.length - 1) + n := by omega
      rw [h0, e1, Nat.add_div_right _ hn,
        Nat.div_eq_of_lt (show xs.length - 1 < n by omega),
        Nat.div_eq_of_lt (show 0 + n - 1 < n by omega)]
    · have e1 : xs.length + n - 1 = ((xs.length - n - 1) + n) + n := by omega
      have e2 : xs.length - n + n - 1 = (xs.length - n - 1) + n := by omega
      rw [e1, e2, Nat.add_div_right _ hn, Nat.add_div_right _ hn]
  unfold pyBatch
  rw [List.length_drop, key, List.range'_succ, List.map_cons, List.drop_zero,
    Nat.zero_add]
  have hs := pyBatch_slice_shift xs n ((xs.length - n + n - 1) / n) 0
  rw [Nat.zero_add] at hs
  rw [hs]

theorem pyBatch_flatten {α : Type} {n : Nat} (hn : 0 < n) :
    ∀ xs : List α, (pyBatch xs n).flatten = xs := by
  have main : ∀ (L : Nat) (xs : List α), xs.length ≤ L →
      (pyBatch xs n).flatten = xs := by
    intro L
    induction L with
    | zero =>
      intro xs hx
      match xs with
      | [] => rw [pyBatch_nil]; rfl
      | x :: rest => simp at hx
    | succ m ih =>
      intro xs hx
      match xs with
      | [] => rw [pyBatch_nil]; rfl
      | x :: rest =>
        rw [pyBatch_cons_eq (by simp) hn, List.flatten_cons,
          ih _ (by
            simp only [List.length_drop, List.length_cons] at hx ⊢
            omega),
          List.take_append_drop]
  exact fun xs => main xs.length xs le_rfl

theorem pyBatch_length {α : Type} (xs : List α) (n : Nat) :
    (pyBatch xs n).length = (xs.length + n - 1) / n := by
  unfold pyBatch
  rw [List.length_map, List.length_range']

theorem pyBatch_mem_length {α : Type} {xs : List α} {n : Nat} {b : List α}
    (hb : b ∈ pyBatch xs n) : b.length ≤ n := by
  unfold pyBatch at hb
  obtain ⟨ndx, _, rfl⟩ := List.mem_map.mp hb
  rw [List.length_take]
  exact min_le_left _ _

/-! ### Lemmas about the dict operations -/

theorem mem_of_dictGet_eq_some {d : List (String × Nat)} {n : String} {i : Nat}
    (h : dictGet d n = some i) : (n, i) ∈ d := by
  unfold dictGet at h
  obtain ⟨e, he, h2⟩ := Option.map_eq_some'.mp h
  have h1 : e.1 = n := by simpa using List.find?_some he
  have : e = (n, i) := by
    cases e; simp_all
  exact this ▸ List.mem_of_find?_eq_some he

theorem dictGet_eq_some_of_mem {d : List (String × Nat)} {n : String} {i : Nat}
    (hnodup : (d.map (fun e => e.1)).Nodup) (hm : (n, i) ∈ d) :
    dictGet d n = some i := by
  induction d with
  | nil => cases hm
  | cons e rest ih =>
    rw [List.map_cons, List.nodup_cons] at hnodup
    rcases List.mem_cons.mp hm with h | h
    · subst h
      unfold dictGet
      rw [List.find?_cons_of_pos _ (by simp)]
      rfl
    · have hne : e.1 ≠ n := by
        intro hc
        exact hnodup.1 (hc ▸ List.mem_map.mpr ⟨(n, i), h, rfl⟩)
      unfold dictGet
      rw [List.find?_cons_of_neg _ (by simpa using hne)]
      exact ih hnodup.2 h

theorem dictGet_dictSet_self (d : List (String × Nat)) (k : String) (v : Nat) :
    dictGet (dictSet d k v) k = some v := by
  induction d with
  | nil =>
    unfold dictSet dictGet
    rw [List.find?_cons_of_pos _ (by simp)]
    rfl
  | cons e rest ih =>
    cases e with
    | mk k' v' =>
      unfold dictSet
      by_cases h : k' = k
      · rw [if_pos h]
        unfold dictGet
        rw [List.find?_cons_of_pos _ (by simp)]
        rfl
      · rw [if_neg h]
        unfold dictGet at ih ⊢
        rw [List.find?_cons_of_neg _ (by simpa using h)]
        exact ih

theorem mem_dictSet {d : List (String × Nat)} {k : String} {v : Nat} {x : String × Nat}
    (h : x ∈ dictSet d k v) : x = (k, v) ∨ x ∈ d := by
  induction d with
  | nil => simpa [dictSet] using h
  | cons e rest ih =>
    cases e with
    | mk k' v' =>
      unfold dictSet at h
      by_cases hk : k' = k
      · rw [if_pos hk] at h
        rcases List.mem_cons.mp h with h | h
        · exact Or.inl h
        · exact Or.inr (List.mem_cons.mpr (Or.inr h))
      · rw [if_neg hk] at h
        rcases List.mem_cons.mp h with h | h
        · exact Or.inr (List.mem_cons.mpr (Or.inl h))
        · rcases ih h with h | h
          · exact Or.inl h
          · exact Or.inr (List.mem_cons.mpr (Or.inr h))

theorem dictSet_keys_of_mem {d : List (String × Nat)} {k : String} (v : Nat)
    (h : k ∈ d.map (fun e => e.1)) :
    (dictSet d k v).map (fun e => e.1) = d.map (fun e => e.1) := by
  induction d with
  | nil => simp at h
  | cons e rest ih =>
    cases e with
    | mk k' v' =>
      unfold dictSet
      by_cases hk : k' = k
      · rw [if_pos hk]; simp [hk]
      · rw [if_neg hk]
        rw [List.map_cons] at h ⊢
        rcases List.mem_cons.mp h with h | h
        · exact absurd h.symm hk
        · rw [List.map_cons, ih h]

theorem dictSet_of_not_mem {d : List (String × Nat)} {k : String} (v : Nat)
    (h : k ∉ d.map (fun e => e.1)) : dictSet d k v = d ++ [(k, v)] := by
  induction d with
  | nil => rfl
  | cons e rest ih =>
    cases e with
    | mk k' v' =>
      rw [List.map_cons, List.mem_cons] at h
      push_neg at h
      unfold dictSet
      rw [if_neg (fun hc => h.1 hc.symm), ih h.2]
      rfl

theorem dictSet_keys_nodup {d : List (String × Nat)} {k : String} (v : Nat)
    (h : (d.map (fun e => e.1)).Nodup) :
    ((dictSet d k v).map (fun e => e.1)).Nodup := by
  by_cases hk : k ∈ d.map (fun e => e.1)
  · rw [dictSet_keys_of_mem v hk]; exact h
  · rw [dictSet_of_not_mem v hk]
    simp only [List.map_append, List.map_cons, List.map_nil]
    refine List.Nodup.append h (by simp) ?_
    intro a ha hb
    rw [List.mem_singleton] at hb
    subst hb
    exact hk ha

theorem dictSet_values_nodup {d : List (String × Nat)} {k : String} {v : Nat}
    (h : (d.map (fun e => e.2)).Nodup) (hv : v ∉ d.map (fun e => e.2)) :
    ((dictSet d k v).map (fun e => e.2)).Nodup := by
  induction d with
  | nil => simp [dictSet]
  | cons e rest ih =>
    cases e with
    | mk k' v' =>
      rw [List.map_cons, List.nodup_cons] at h
      rw [List.map_cons, List.mem_cons] at hv
      push_neg at hv
      unfold dictSet
      by_cases hk : k' = k
      · rw [if_pos hk, List.map_cons, List.nodup_cons]
        exact ⟨fun hc => hv.2 hc, h.2⟩
      · rw [if_neg hk, List.map_cons, List.nodup_cons]
        refine ⟨fun hc => ?_, ih h.2 hv.2⟩
        obtain ⟨x, hx, hx2⟩ := List.mem_map.mp hc
        rcases mem_dictSet hx with h' | h'
        · exact hv.1 (by rw [← hx2, h'])
        · exact h.1 (hx2 ▸ List.mem_map.mpr ⟨x, h', rfl⟩)

theorem dictSet_self_key_value {d : List (String × Nat)} {k : String} {v j : Nat}
    (hnodup : (d.map (fun e => e.1)).Nodup)
    (h : (k, j) ∈ dictSet d k v) : j = v := by
  have := dictGet_dictSet_self d k v
  have h2 := dictGet_eq_some_of_mem (dictSet_keys_nodup v hnodup) h
  rw [this] at h2
  exact (Option.some.inj h2).symm

/-! ### Lemmas about `setValueAt`, `applyFound` and `batchLoop` -/

theorem setValueAt_get? (ps : List SSMParameter) (i j : Nat) (v : String) :
    (setValueAt ps i v).get? j =
      if i = j then (ps.get? j).map (fun p => { p with value := some v })
      else ps.get? j := by
  induction ps generalizing i j with
  | nil =>
    unfold setValueAt
    cases j <;> split <;> rfl
  | cons p ps ih =>
    cases i with
    | zero =>
      cases j with
      | zero => simp [setValueAt]
      | succ j' => simp [setValueAt]
    | succ i' =>
      cases j with
      | zero => simp [setValueAt]
      | succ j' =>
        have := ih i' j'
        simpa [setValueAt, Nat.succ_inj'] using this

theorem setValueAt_length (ps : List SSMParameter) (i : Nat) (v : String) :
    (setValueAt ps i v).length = ps.length := by
  induction ps generalizing i with
  | nil => cases i <;> rfl
  | cons p ps ih =>
    cases i with
    | zero => simp [setValueAt]
    | succ i' => simp [setValueAt, ih i']

theorem applyFound_cons (w : GWorld) (n v : String) (rest : List (String × String)) :
    applyFound w ((n, v) :: rest) =
      applyFound
        (match dictGet w.group.parameters n with
         | some i => { w with params := setValueAt w.params i v }
         | none => w) rest := rfl

theorem applyFound_group (w : GWorld) (l : List (String × String)) :
    (applyFound w l).group = w.group := by
  induction l generalizing w with
  | nil => rfl
  | cons x rest ih =>
    cases x with
    | mk n v =>
      unfold applyFound
      cases h : dictGet w.group.parameters n <;> simp only [h] <;> rw [ih]

theorem applyFound_length (w : GWorld) (l : List (String × String)) :
    (applyFound w l).params.length = w.params.length := by
  induction l generalizing w with
  | nil => rfl
  | cons x rest ih =>
    cases x with
    | mk n v =>
      rw [applyFound_cons]
      cases h : dictGet w.group.parameters n with
      | none => simp only [h]; exact ih _
      | some j => simp only [h]; rw [ih]; simp [setValueAt_length]

theorem applyFound_append (w : GWorld) (l₁ l₂ : List (String × String)) :
    applyFound w (l₁ ++ l₂) = applyFound (applyFound w l₁) l₂ := by
  induction l₁ generalizing w with
  | nil => rfl
  | cons x rest ih =>
    cases x with
    | mk n v =>
      rw [List.cons_append, applyFound_cons, applyFound_cons, ih]

theorem applyFound_get?_untouched (w : GWorld) (l : List (String × String)) (i : Nat)
    (h : ∀ x ∈ l, dictGet w.group.parameters x.1 ≠ some i) :
    (applyFound w l).getParam i = w.getParam i := by
  induction l generalizing w with
  | nil => rfl
  | cons x rest ih =>
    cases x with
    | mk n v =>
      unfold applyFound
      cases hd : dictGet w.group.parameters n with
      | none =>
        simp only [hd]
        exact ih w (fun x hx => h x (List.mem_cons_of_mem _ hx))
      | some j =>
        simp only [hd]
        have hji : j ≠ i := by
          intro hc
          exact h (n, v) (List.mem_cons_self _ _) (by rw [hd, hc])
        have hgroup : ({ w with params := setValueAt w.params j v } : GWorld).group =
            w.group := rfl
        rw [ih _ (fun x hx => by rw [hgroup]; exact h x (List.mem_cons_of_mem _ hx))]
        unfold GWorld.getParam
        simp only
        rw [setValueAt_get?, if_neg hji]

theorem applyFound_refreshable (w : GWorld) (l : List (String × String)) (i : Nat) :
    ((applyFound w l).getParam i).map (fun p => p.refreshable) =
      (w.getParam i).map (fun p => p.refreshable) := by
  induction l generalizing w with
  | nil => rfl
  | cons x rest ih =>
    cases x with
    | mk n v =>
      unfold applyFound
      cases hd : dictGet w.group.parameters n with
      | none => simp only [hd]; exact ih w
      | some j =>
        simp only [hd]
        rw [ih]
        unfold GWorld.getParam
        simp only
        rw [setValueAt_get?]
        split
        · rw [Option.map_map]
          rfl
        · rfl

theorem applyFound_get?_found (w : GWorld) (l : List (String × String))
    (n v : String) (i : Nat)
    (hnodup : (l.map (fun x => x.1)).Nodup)
    (hmem : (n, v) ∈ l)
    (hi : dictGet w.group.parameters n = some i)
    (hothers : ∀ x ∈ l, x.1 ≠ n → dictGet w.group.parameters x.1 ≠ some i) :
    (applyFound w l).getParam i =
      (w.getParam i).map (fun p => { p with value := some v }) := by
  induction l generalizing w with
  | nil => cases hmem
  | cons x rest ih =>
    obtain ⟨m, u⟩ := x
    rw [List.map_cons, List.nodup_cons] at hnodup
    by_cases hm : m = n
    · subst hm
      have huv : u = v := by
        rcases List.mem_cons.mp hmem with h | h
        · exact (Prod.mk.injEq _ _ _ _ ▸ h.symm).2
        · exact absurd (List.mem_map.mpr ⟨(m, v), h, rfl⟩) hnodup.1
      subst huv
      unfold applyFound
      simp only [hi]
      have hgroup : ({ w with params := setValueAt w.params i u } : GWorld).group =
          w.group := rfl
      rw [applyFound_get?_untouched _ rest i (fun x hx => by
        rw [hgroup]
        exact hothers x (List.mem_cons_of_mem _ hx)
          (fun hc => hnodup.1 (hc ▸ List.mem_map.mpr ⟨x, hx, rfl⟩)))]
      unfold GWorld.getParam
      simp only
      rw [setValueAt_get?, if_pos rfl]
    · have hmem' : (n, v) ∈ rest := by
        rcases List.mem_cons.mp hmem with h | h
        · exact absurd (congrArg Prod.fst h).symm hm
        · exact h
      unfold applyFound
      cases hd : dictGet w.group.parameters m with
      | none =>
        simp only [hd]
        exact ih w hnodup.2 hmem' hi
          (fun x hx => hothers x (List.mem_cons_of_mem _ hx))
      | some j =>
        simp only [hd]
        have hji : j ≠ i := by
          intro hc
          exact hothers (m, u) (List.mem_cons_self _ _) hm (by rw [hd, hc])
        rw [ih { w with params := setValueAt w.params j u } hnodup.2 hmem' hi
          (fun x hx => hothers x (List.mem_cons_of_mem _ hx))]
        unfold GWorld.getParam
        simp only
        rw [setValueAt_get?, if_neg hji]

theorem batchLoop_eq (store : Store) (wd : Bool) (bs : List (List String)) :
    ∀ (w : GWorld) (inv : List String) (tr : List RemoteCall),
      batchLoop store wd w inv tr bs =
        (applyFound w (bs.flatten.filterMap
            (fun n => (store n).map (fun v => (n, v)))),
         inv ++ bs.flatten.filter (fun n => (store n).isNone),
         tr ++ bs.map (fun b => RemoteCall.getParameters b wd)) := by
  induction bs with
  | nil => intro w inv tr; simp [batchLoop, applyFound]
  | cons b bs ih =>
    intro w inv tr
    unfold batchLoop
    rw [ih]
    rw [List.flatten_cons, List.filterMap_append, List.filter_append,
      applyFound_append, List.map_cons]
    simp only [get_parameters, List.append_assoc]
    rfl

/-! ### Characterisation of `group_refresh` -/

theorem group_refresh_inner_eq (store : Store) (w : GWorld) :
    GWorld.group_refresh_inner store w =
      (applyFound w (foundItems store w.memberNames),
       (if invalidItems store w.memberNames = [] then none
        else some (.invalidParam
          (String.intercalate "," (invalidItems store w.memberNames)))),
       (pyBatch w.memberNames 10).map (fun b => RemoteCall.getParameters b
         (w.memberValues.any (fun p => p.with_decryption)))) := by
  unfold GWorld.group_refresh_inner
  dsimp only
  rw [batchLoop_eq, pyBatch_flatten (by omega)]
  simp only [List.nil_append]
  unfold foundItems invalidItems
  by_cases h : w.memberNames.filter (fun n => (store n).isNone) = []
  · rw [if_pos (List.isEmpty_iff.mpr h), if_pos h]
  · rw [if_neg (fun hc => h (List.isEmpty_iff.mp hc)), if_neg h]

theorem foundItems_keys (store : Store) (names : List String) :
    (foundItems store names).map (fun x => x.1) =
      names.filter (fun n => (store n).isSome) := by
  induction names with
  | nil => rfl
  | cons n rest ih =>
    unfold foundItems at ih ⊢
    cases h : store n with
    | none => simp [h, List.filter_cons, ih]
    | some v => simp [h, List.filter_cons, ih]

theorem mem_foundItems {store : Store} {names : List String} {n v : String}
    (hn : n ∈ names) (hv : store n = some v) : (n, v) ∈ foundItems store names := by
  unfold foundItems
  exact List.mem_filterMap.mpr ⟨n, hn, by rw [hv]; rfl⟩

theorem foundItems_fst_isSome {store : Store} {names : List String}
    {x : String × String} (hx : x ∈ foundItems store names) :
    (store x.1).isSome = true := by
  unfold foundItems at hx
  obtain ⟨a, _, ha⟩ := List.mem_filterMap.mp hx
  cases h : store a with
  | none => rw [h] at ha; cases ha
  | some v =>
    rw [h] at ha
    cases ha
    rw [h]
    rfl

/-! ### Well-formedness consequences -/

theorem memberValues_map_name (params : List SSMParameter) :
    ∀ d : List (String × Nat),
      (∀ e ∈ d, (params.get? e.2).map (fun p => p.name) = some e.1) →
      (d.filterMap (fun e => params.get? e.2)).map (fun p => p.name) =
        d.map (fun e => e.1) := by
  intro d
  induction d with
  | nil => intro _; rfl
  | cons e rest ih =>
    intro h
    have he := h e (List.mem_cons_self _ _)
    cases hp : params.get? e.2 with
    | none => rw [hp] at he; cases he
    | some p =>
      rw [hp] at he
      rw [List.filterMap_cons, hp, List.map_cons, List.map_cons,
        ih (fun x hx => h x (List.mem_cons_of_mem _ hx))]
      exact congrArg (fun s => s :: rest.map (fun e => e.1)) (Option.some.inj he)

theorem memberNames_eq_keys {w : GWorld} (hwf : w.wf) :
    w.memberNames = w.group.parameters.map (fun e => e.1) := by
  unfold GWorld.memberNames GWorld.memberValues
  exact memberValues_map_name w.params w.group.parameters hwf.2.2

theorem memberNames_nodup {w : GWorld} (hwf : w.wf) : w.memberNames.Nodup := by
  rw [memberNames_eq_keys hwf]
  exact hwf.1

theorem wf_mem_names {w : GWorld} (hwf : w.wf) {n : String} {i : Nat}
    (h : (n, i) ∈ w.group.parameters) : n ∈ w.memberNames := by
  rw [memberNames_eq_keys hwf]
  exact List.mem_map.mpr ⟨(n, i), h, rfl⟩

theorem wf_index_lt {w : GWorld} (hwf : w.wf) {n : String} {i : Nat}
    (h : (n, i) ∈ w.group.parameters) : i < w.params.length := by
  have h3 := hwf.2.2 _ h
  cases hp : w.params.get? i with
  | none =>
    rw [hp] at h3
    cases h3
  | some p =>
    by_contra hc
    rw [List.get?_eq_none.mpr (Nat.le_of_not_lt hc)] at hp
    cases hp

/-- Distinct keys of a well-formed dict cannot share an index. -/
theorem wf_index_inj {w : GWorld} (hwf : w.wf) {n m : String} {i : Nat}
    (hn : (n, i) ∈ w.group.parameters) (hm : (m, i) ∈ w.group.parameters) :
    n = m := by
  have := List.inj_on_of_nodup_map hwf.2.1 hn hm rfl
  exact congrArg Prod.fst this

/-- The side conditions of `applyFound_get?_found`, discharged from `wf`. -/
theorem wf_found_others {w : GWorld} (hwf : w.wf) {store : Store}
    {n : String} {i : Nat} (hmem : (n, i) ∈ w.group.parameters) :
    ∀ x ∈ foundItems store w.memberNames, x.1 ≠ n →
      dictGet w.group.parameters x.1 ≠ some i := by
  intro x _ hx1 hc
  exact hx1 (wf_index_inj hwf (mem_of_dictGet_eq_some hc) hmem)

theorem group_refresh_dict (store : Store) (now : Int) (w : GWorld) :
    (GWorld.group_refresh store now w).1.group.parameters = w.group.parameters := by
  unfold GWorld.group_refresh
  rw [group_refresh_inner_eq]
  split
  · simp [applyFound_group]
  · simp [applyFound_group]

theorem group_refresh_err (store : Store) (now : Int) (w : GWorld) :
    (GWorld.group_refresh store now w).2.1 =
      (if invalidItems store w.memberNames = [] then none
       else some (.invalidParam
         (String.intercalate "," (invalidItems store w.memberNames)))) := by
  unfold GWorld.group_refresh
  rw [group_refresh_inner_eq]
  by_cases h : invalidItems store w.memberNames = [] <;> simp [h]

theorem group_refresh_trace (store : Store) (now : Int) (w : GWorld) :
    (GWorld.group_refresh store now w).2.2 =
      (pyBatch w.memberNames 10).map (fun b => RemoteCall.getParameters b
        (w.memberValues.any (fun p => p.with_decryption))) := by
  unfold GWorld.group_refresh
  rw [group_refresh_inner_eq]
  by_cases h : invalidItems store w.memberNames = [] <;> simp [h]

theorem group_refresh_getParam (store : Store) (now : Int) (w : GWorld) (i : Nat) :
    (GWorld.group_refresh store now w).1.getParam i =
      (applyFound w (foundItems store w.memberNames)).getParam i := by
  unfold GWorld.group_refresh
  rw [group_refresh_inner_eq]
  by_cases h : invalidItems store w.memberNames = []
  · rw [if_pos h]; rfl
  · rw [if_neg h]

theorem group_refresh_group_refreshable (store : Store) (now : Int) (w : GWorld) :
    (GWorld.group_refresh store now w).1.group.refreshable =
      (if invalidItems store w.memberNames = []
       then { w.group.refreshable with last_refresh_time := some now }
       else w.group.refreshable) := by
  unfold GWorld.group_refresh
  rw [group_refresh_inner_eq]
  by_cases h : invalidItems store w.memberNames = [] <;>
    simp [h, applyFound_group]

theorem group_refresh_params_length (store : Store) (now : Int) (w : GWorld) :
    (GWorld.group_refresh store now w).1.params.length = w.params.length := by
  unfold GWorld.group_refresh
  rw [group_refresh_inner_eq]
  by_cases h : invalidItems store w.memberNames = [] <;>
    simp [h, applyFound_length]

/-- A member whose name the store knows has its cached value set to the
store's value by a group refresh. -/
theorem group_refresh_found {w : GWorld} (hwf : w.wf) (store : Store) (now : Int)
    {n : String} {i : Nat} {v : String}
    (hmem : (n, i) ∈ w.group.parameters) (hv : store n = some v) :
    (GWorld.group_refresh store now w).1.getParam i =
      (w.getParam i).map (fun p => { p with value := some v }) := by
  rw [group_refresh_getParam]
  refine applyFound_get?_found w _ n v i ?_ ?_ ?_ (wf_found_others hwf hmem)
  · rw [foundItems_keys]
    exact (List.filter_sublist _).nodup (memberNames_nodup hwf)
  · exact mem_foundItems (wf_mem_names hwf hmem) hv
  · exact dictGet_eq_some_of_mem hwf.1 hmem

/-- A member whose name the store reports unknown is left entirely unchanged
by a group refresh. -/
theorem group_refresh_notfound {w : GWorld} (hwf : w.wf) (store : Store) (now : Int)
    {n : String} {i : Nat}
    (hmem : (n, i) ∈ w.group.parameters) (hv : store n = none) :
    (GWorld.group_refresh store now w).1.getParam i = w.getParam i := by
  rw [group_refresh_getParam]
  refine applyFound_get?_untouched w _ i ?_
  intro x hx hc
  by_cases hx1 : x.1 = n
  · have := foundItems_fst_isSome hx
    rw [hx1, hv] at this
    cases this
  · exact wf_found_others hwf hmem x hx hx1 hc

/-- A heap index no dict entry points at is untouched by a group refresh. -/
theorem group_refresh_unlisted (store : Store) (now : Int) (w : GWorld) (i : Nat)
    (h : ∀ x ∈ w.group.parameters, x.2 ≠ i) :
    (GWorld.group_refresh store now w).1.getParam i = w.getParam i := by
  rw [group_refresh_getParam]
  refine applyFound_get?_untouched w _ i ?_
  intro x _ hc
  exact h _ (mem_of_dictGet_eq_some hc) rfl

theorem group_refresh_refreshable_params (store : Store) (now : Int) (w : GWorld)
    (i : Nat) :
    ((GWorld.group_refresh store now w).1.getParam i).map (fun p => p.refreshable) =
      (w.getParam i).map (fun p => p.refreshable) := by
  rw [group_refresh_getParam]
  exact applyFound_refreshable w _ i

/-! ### Lemmas about `setParam` and `param_refresh` -/

theorem setParam_group (w : GWorld) (i : Nat) (p : SSMParameter) :
    (w.setParam i p).group = w.group := rfl

theorem setParam_getParam_self {w : GWorld} {i : Nat} (p : SSMParameter)
    (h : i < w.params.length) : (w.setParam i p).getParam i = some p := by
  unfold GWorld.setParam GWorld.getParam
  simp only
  rw [List.get?_set_eq]
  cases hq : w.params.get? i with
  | none =>
    rw [List.get?_eq_none] at hq
    omega
  | some q => rfl

theorem setParam_getParam_ne {w : GWorld} {i j : Nat} (p : SSMParameter)
    (h : i ≠ j) : (w.setParam i p).getParam j = w.getParam j := by
  unfold GWorld.setParam GWorld.getParam
  simp only
  exact List.get?_set_ne p w.params h

theorem getParam_of_lt {w : GWorld} {i : Nat} (h : i < w.params.length) :
    ∃ p, w.getParam i = some p := by
  cases hq : w.params.get? i with
  | none =>
    rw [List.get?_eq_none] at hq
    omega
  | some q => exact ⟨q, hq⟩

theorem param_refresh_inner_grouped {store : Store} {now : Int} {w : GWorld}
    {i : Nat} {p : SSMParameter}
    (hp : w.getParam i = some p) (hg : p.in_group = true) :
    GWorld.param_refresh_inner store now w i = GWorld.group_refresh store now w := by
  unfold GWorld.param_refresh_inner
  rw [hp]
  simp [hg]

theorem param_refresh_inner_standalone {store : Store} {now : Int} {w : GWorld}
    {i : Nat} {p : SSMParameter}
    (hp : w.getParam i = some p) (hg : p.in_group = false) :
    GWorld.param_refresh_inner store now w i =
      (match store p.name with
       | some v =>
         (w.setParam i { p with value := some v }, none,
          [RemoteCall.getParameter p.name p.with_decryption])
       | none =>
         (w, some (.invalidParam p.name),
          [RemoteCall.getParameter p.name p.with_decryption])) := by
  unfold GWorld.param_refresh_inner
  rw [hp]
  simp [hg]

theorem param_refresh_of_err {store : Store} {now : Int} {w : GWorld} {i : Nat}
    {e : PyError}
    (h : (GWorld.param_refresh_inner store now w i).2.1 = some e) :
    GWorld.param_refresh store now w i =
      ((GWorld.param_refresh_inner store now w i).1, some e,
       (GWorld.param_refresh_inner store now w i).2.2) := by
  unfold GWorld.param_refresh
  simp [h]

theorem param_refresh_of_ok {store : Store} {now : Int} {w : GWorld} {i : Nat}
    {q : SSMParameter}
    (h : (GWorld.param_refresh_inner store now w i).2.1 = none)
    (hq : (GWorld.param_refresh_inner store now w i).1.getParam i = some q) :
    GWorld.param_refresh store now w i =
      ((GWorld.param_refresh_inner store now w i).1.setParam i
         { q with refreshable :=
             { q.refreshable with last_refresh_time := some now } },
       none, (GWorld.param_refresh_inner store now w i).2.2) := by
  unfold GWorld.param_refresh
  simp [h, hq]

theorem param_refresh_of_ok_missing {store : Store} {now : Int} {w : GWorld}
    {i : Nat}
    (h : (GWorld.param_refresh_inner store now w i).2.1 = none)
    (hq : (GWorld.param_refresh_inner store now w i).1.getParam i = none) :
    GWorld.param_refresh store now w i =
      ((GWorld.param_refresh_inner store now w i).1, none,
       (GWorld.param_refresh_inner store now w i).2.2) := by
  unfold GWorld.param_refresh
  simp [h, hq]

theorem param_refresh_err_eq (store : Store) (now : Int) (w : GWorld) (i : Nat) :
    (GWorld.param_refresh store now w i).2.1 =
      (GWorld.param_refresh_inner store now w i).2.1 := by
  cases h : (GWorld.param_refresh_inner store now w i).2.1 with
  | some e => rw [param_refresh_of_err h]
  | none =>
    cases hq : (GWorld.param_refresh_inner store now w i).1.getParam i with
    | some q => rw [param_refresh_of_ok h hq]
    | none => rw [param_refresh_of_ok_missing h hq]

theorem param_refresh_trace_eq (store : Store) (now : Int) (w : GWorld) (i : Nat) :
    (GWorld.param_refresh store now w i).2.2 =
      (GWorld.param_refresh_inner store now w i).2.2 := by
  cases h : (GWorld.param_refresh_inner store now w i).2.1 with
  | some e => rw [param_refresh_of_err h]
  | none =>
    cases hq : (GWorld.param_refresh_inner store now w i).1.getParam i with
    | some q => rw [param_refresh_of_ok h hq]
    | none => rw [param_refresh_of_ok_missing h hq]

theorem group_refresh_err_none_iff (store : Store) (now : Int) (w : GWorld) :
    (GWorld.group_refresh store now w).2.1 = none ↔
      invalidItems store w.memberNames = [] := by
  rw [group_refresh_err]
  by_cases h : invalidItems store w.memberNames = [] <;> simp [h]

theorem lt_of_getParam_eq_some {w : GWorld} {i : Nat} {p : SSMParameter}
    (h : w.getParam i = some p) : i < w.params.length := by
  by_contra hc
  unfold GWorld.getParam at h
  rw [List.get?_eq_none.mpr (Nat.le_of_not_lt hc)] at h
  cases h

/-- A parameter refresh that did not raise changes no cached value beyond
what its `_refresh` did: the final timestamp write at index `i` preserves
every `_value`. -/
theorem param_refresh_value_eq_inner (store : Store) (now : Int) (w : GWorld)
    (i : Nat) (h : (GWorld.param_refresh_inner store now w i).2.1 = none) :
    ∀ j, ((GWorld.param_refresh store now w i).1.getParam j).map
        (fun q => q.value) =
      ((GWorld.param_refresh_inner store now w i).1.getParam j).map
        (fun q => q.value) := by
  intro j
  cases hq : (GWorld.param_refresh_inner store now w i).1.getParam i with
  | none => rw [param_refresh_of_ok_missing h hq]
  | some q =>
    rw [param_refresh_of_ok h hq]
    by_cases hij : i = j
    · subst hij
      rw [setParam_getParam_self _ (lt_of_getParam_eq_some hq), hq]
      rfl
    · rw [setParam_getParam_ne _ hij]

/-! ### Claim C1 -/

/-- C1 (counterexample): the claim says a policy whose `max_age` is unset or
zero returns true from `should_refresh()` on the very first evaluation
(before any refresh was ever marked). In the code the `not self._max_age`
test comes first, so a fresh policy with `max_age` unset — or zero —
evaluates to false on that very first evaluation, refuting the claim. -/
theorem C1_counterexample :
    RefreshableState.should_refresh
      { last_refresh_time := none, max_age := none } 0 = false ∧
    RefreshableState.should_refresh
      { last_refresh_time := none, max_age := some 0 } 0 = false := by
  decide

/-- C1 (amended): for every refresh policy whose `max_age` is unset or zero,
`should_refresh()` returns false on every evaluation — including the very
first one, before any refresh was ever marked — regardless of elapsed time
and of the recorded last-refresh timestamp. -/
theorem C1_amended (lrt ma : Option Int) (now : Int)
    (h : maxAgeFalsy ma = true) :
    RefreshableState.should_refresh
      { last_refresh_time := lrt, max_age := ma } now = false := by
  unfold RefreshableState.should_refresh
  simp [h]

/-- Closed instance of `C1_amended` at a concrete fresh policy. -/
theorem C1_witness :
    maxAgeFalsy none = true ∧
    RefreshableState.should_refresh
      { last_refresh_time := none, max_age := none } 7 = false :=
  ⟨by decide, C1_amended none none 7 (by decide)⟩

/-! ### Claim C8 -/

/-- C8: for a refresh policy with `max_age = d > 0` seconds and a last
refresh marked at time `t`, `should_refresh()` returns false at every query
time ≤ t + d and true at every query time strictly after t + d. -/
theorem C8_window (d t now : Int) (hd : 0 < d) :
    (now ≤ t + d →
      RefreshableState.should_refresh
        { last_refresh_time := some t, max_age := some d } now = false) ∧
    (t + d < now →
      RefreshableState.should_refresh
        { last_refresh_time := some t, max_age := some d } now = true) := by
  have hne : ((d : Int) == 0) = false := by
    simpa using (by omega : d ≠ 0)
  constructor <;> intro h <;>
    · unfold RefreshableState.should_refresh maxAgeFalsy
      simp only [hne, Bool.false_eq_true, if_false, Option.getD_some,
        decide_eq_true_eq, decide_eq_false_iff_not, not_lt]
      omega

/-- Closed instance of `C8_window` on both sides of the boundary. -/
theorem C8_witness :
    (0 : Int) < 5 ∧
    RefreshableState.should_refresh
      { last_refresh_time := some 0, max_age := some 5 } 5 = false ∧
    RefreshableState.should_refresh
      { last_refresh_time := some 0, max_age := some 5 } 6 = true :=
  ⟨by decide, (C8_window 5 0 5 (by decide)).1 (by decide),
   (C8_window 5 0 6 (by decide)).2 (by decide)⟩

/-! ### Claim C2 -/

/-- C2 (counterexample): the claim says `refresh()` advances
`last_refresh_time` even when the refresh attempt raises. In the code the
timestamp assignment comes after `self._refresh()` returns, so it is skipped
on a raise: refreshing the standalone parameter `key` at time 5 against a
store that does not know `key` raises `InvalidParam "key"` and leaves
`last_refresh_time` unset, refuting the claim. -/
theorem C2_counterexample :
    (GWorld.param_refresh storeEmpty 5 worldStandalone 0).2.1 =
      some (.invalidParam "key") ∧
    ((GWorld.param_refresh storeEmpty 5 worldStandalone 0).1.getParam 0).map
      (fun p => p.refreshable.last_refresh_time) = some none := by
  decide

/-- C2 (amended): a `refresh()` call — on a single-key cache or on the group
— updates `last_refresh_time` to the current time exactly when the refresh
attempt completes without raising. When the refresh raises (for example
`InvalidParam` for unknown keys), no policy timestamp is advanced: every
parameter object's `Refreshable` state and the group's `Refreshable` state
are left unchanged, so the next read inside the max-age window can trigger
another remote call. -/
theorem C2_amended (store : Store) (now : Int) (w : GWorld) (i : Nat) :
    ((GWorld.param_refresh store now w i).2.1 = none →
      ∀ p, w.getParam i = some p →
        ((GWorld.param_refresh store now w i).1.getParam i).map
          (fun q => q.refreshable.last_refresh_time) = some (some now)) ∧
    ((GWorld.param_refresh store now w i).2.1.isSome = true →
      (∀ j, ((GWorld.param_refresh store now w i).1.getParam j).map
          (fun q => q.refreshable) = (w.getParam j).map (fun q => q.refreshable)) ∧
      (GWorld.param_refresh store now w i).1.group.refreshable =
        w.group.refreshable) ∧
    ((GWorld.group_refresh store now w).2.1 = none →
      (GWorld.group_refresh store now w).1.group.refreshable.last_refresh_time =
        some now) ∧
    ((GWorld.group_refresh store now w).2.1.isSome = true →
      (GWorld.group_refresh store now w).1.group.refreshable =
        w.group.refreshable) := by
  refine ⟨?_, ?_, ?_, ?_⟩
  · intro hok p hp
    have hinner : (GWorld.param_refresh_inner store now w i).2.1 = none := by
      rw [← param_refresh_err_eq]
      exact hok
    have hlt : i < w.params.length := by
      by_contra hc
      unfold GWorld.getParam at hp
      rw [List.get?_eq_none.mpr (Nat.le_of_not_lt hc)] at hp
      cases hp
    have hlt2 : i < (GWorld.param_refresh_inner store now w i).1.params.length := by
      cases hg : p.in_group with
      | true =>
        rw [param_refresh_inner_grouped hp hg, group_refresh_params_length]
        exact hlt
      | false =>
        rw [param_refresh_inner_standalone hp hg]
        cases hv : store p.name with
        | some v => simpa [GWorld.setParam] using hlt
        | none => exact hlt
    obtain ⟨q, hq⟩ := getParam_of_lt hlt2
    rw [param_refresh_of_ok hinner hq, setParam_getParam_self _ hlt2]
    rfl
  · intro herr
    obtain ⟨e, he⟩ := Option.isSome_iff_exists.mp herr
    have hinner : (GWorld.param_refresh_inner store now w i).2.1 = some e := by
      rw [← param_refresh_err_eq]
      exact he
    rw [param_refresh_of_err hinner]
    cases hp : w.getParam i with
    | none =>
      unfold GWorld.param_refresh_inner at hinner
      rw [hp] at hinner
      simp at hinner
    | some p =>
      cases hg : p.in_group with
      | true =>
        have hge := @param_refresh_inner_grouped store now w i p hp hg
        rw [hge] at hinner
        rw [hge]
        refine ⟨fun j => group_refresh_refreshable_params store now w j, ?_⟩
        rw [group_refresh_group_refreshable, if_neg]
        intro hc
        rw [(group_refresh_err_none_iff store now w).mpr hc] at hinner
        cases hinner
      | false =>
        have hse := @param_refresh_inner_standalone store now w i p hp hg
        rw [hse] at hinner
        rw [hse]
        cases hv : store p.name with
        | some v =>
          rw [hv] at hinner
          simp at hinner
        | none =>
          exact ⟨fun j => rfl, rfl⟩
  · intro hok
    rw [group_refresh_group_refreshable,
      if_pos ((group_refresh_err_none_iff store now w).mp hok)]
  · intro herr
    rw [group_refresh_group_refreshable, if_neg]
    intro hc
    rw [(group_refresh_err_none_iff store now w).mpr hc] at herr
    cases herr

/-- Closed instance of `C2_amended`: a successful standalone refresh at time
5 stamps `last_refresh_time = 5`. -/
theorem C2_witness :
    (GWorld.param_refresh storeKey 5 worldStandalone 0).2.1 = none ∧
    ((GWorld.param_refresh storeKey 5 worldStandalone 0).1.getParam 0).map
      (fun q => q.refreshable.last_refresh_time) = some (some 5) :=
  ⟨by decide,
   (C2_amended storeKey 5 worldStandalone 0).1 (by decide)
     ⟨⟨none, some 10⟩, "key", none, true, false⟩ (by decide)⟩

/-! ### Claim C3 -/

/-- C3 (counterexample): the claim says reading `value()` on a grouped member
triggers a refresh exactly when the value is unset or the group's shared
policy reports staleness. Here the group's shared policy is stale
(`should_refresh` is true at time 100), the member's value is set, and the
store even holds a fresh value — yet `value()` issues no remote call, changes
nothing and returns the old cached value, refuting the claim: the group's
policy is never consulted by a member read. -/
theorem C3_counterexample :
    worldGrouped.group.refreshable.should_refresh 100 = true ∧
    GWorld.param_value storeLowerA 100 worldGrouped 0 =
      (worldGrouped, none, some "v", []) := by
  decide

/-- C3 (amended): for a grouped member, `value()` triggers a refresh exactly
when the member's cached value is unset or the member's own (individual)
refresh policy reports staleness; the group's shared policy plays no part in
the read-time decision. When a refresh is triggered it delegates to the
group's batched refresh (same remote-call trace). -/
theorem C3_amended (store : Store) (now : Int) (w : GWorld) (i : Nat)
    (p : SSMParameter) (hp : w.getParam i = some p) (hg : p.in_group = true) :
    ((p.value.isNone || p.refreshable.should_refresh now) = false →
      GWorld.param_value store now w i = (w, none, p.value, [])) ∧
    ((p.value.isNone || p.refreshable.should_refresh now) = true →
      (GWorld.param_value store now w i).2.2.2 =
        (GWorld.group_refresh store now w).2.2) := by
  constructor <;> intro hcond
  · unfold GWorld.param_value
    rw [hp]
    simp [hcond]
  · unfold GWorld.param_value
    rw [hp]
    simp only [hcond, if_true]
    have htr : (GWorld.param_refresh store now w i).2.2 =
        (GWorld.group_refresh store now w).2.2 := by
      rw [param_refresh_trace_eq, param_refresh_inner_grouped hp hg]
    cases he : (GWorld.param_refresh store now w i).2.1 with
    | some e => simp only [he]; exact htr
    | none => simp only [he]; exact htr

/-- Closed instance of `C3_amended`: set value and never-stale own policy
mean the read returns the cached value with no call, even though the group
policy is stale. -/
theorem C3_witness :
    worldGrouped.getParam 0 =
      some ⟨⟨none, none⟩, "a", some "v", true, true⟩ ∧
    GWorld.param_value storeLowerA 100 worldGrouped 0 =
      (worldGrouped, none, some "v", []) :=
  ⟨by decide,
   (C3_amended storeLowerA 100 worldGrouped 0
      ⟨⟨none, none⟩, "a", some "v", true, true⟩ (by decide) (by decide)).1
     (by decide)⟩

/-! ### Claim C9 -/

/-- C9: the claim says adding a member to a group with an individual
`max_age` override always raises at construction time. The guard in
`SSMParameterGroup.parameter` only inspects `kwargs`, so passing `max_age`
positionally (`group.parameter("mykey", 5)`) bypasses it: the call succeeds
and registers a grouped member whose own policy carries `max_age = 5`,
contradicting the code's own error message ("max_age can't be set
individually for grouped parameters"). The keyword form and the empty-name
check do raise, as the claim says. -/
theorem C9_evaluation :
    GWorld.parameter worldEmpty
        { param_name := "mykey", max_age_pos := some 5, max_age_kw := none,
          with_decryption_kw := none } =
      .ok ({ params := [⟨⟨none, some 5⟩, "mykey", none, true, true⟩],
             group := { refreshable := ⟨none, none⟩, with_decryption := true,
                        parameters := [("mykey", 0)] } }, 0) ∧
    GWorld.parameter worldEmpty
        { param_name := "mykey", max_age_pos := none, max_age_kw := some 5,
          with_decryption_kw := none } =
      .error (.valueError
        "max_age cant be set individually for grouped parameters") ∧
    SSMParameter.mkParam "" none true =
      .error (.valueError "Must specify name") := by
  decide

/-! ### Claim C4 -/

/-- C4: during a group refresh in which the remote store reports some member
keys unknown, every key the store returned a value for has its member's
cached value updated in place, every unknown key's member object is left
entirely unchanged, every batch is still issued (the trace holds one call
per batch, no early short-circuit), and the call raises `InvalidParam`
carrying the comma-joined unknown keys across all batches (and no error when
there were none). -/
theorem C4_best_effort_update (w : GWorld) (store : Store) (now : Int)
    (hwf : w.wf) :
    ((invalidItems store w.memberNames = [] →
        (GWorld.group_refresh store now w).2.1 = none) ∧
     (invalidItems store w.memberNames ≠ [] →
        (GWorld.group_refresh store now w).2.1 =
          some (.invalidParam
            (String.intercalate "," (invalidItems store w.memberNames))))) ∧
    (∀ e ∈ w.group.parameters, ∀ v, store e.1 = some v →
        ((GWorld.group_refresh store now w).1.getParam e.2).map
          (fun p => p.value) = some (some v)) ∧
    (∀ e ∈ w.group.parameters, store e.1 = none →
        (GWorld.group_refresh store now w).1.getParam e.2 = w.getParam e.2) ∧
    (GWorld.group_refresh store now w).2.2.length =
      (w.memberNames.length + 9) / 10 := by
  refine ⟨⟨?_, ?_⟩, ?_, ?_, ?_⟩
  · intro h
    exact (group_refresh_err_none_iff store now w).mpr h
  · intro h
    rw [group_refresh_err, if_neg h]
  · intro e he v hv
    obtain ⟨n, i⟩ := e
    rw [group_refresh_found hwf store now he hv]
    obtain ⟨p, hp⟩ := getParam_of_lt (wf_index_lt hwf he)
    rw [hp]
    rfl
  · intro e he hv
    obtain ⟨n, i⟩ := e
    exact group_refresh_notfound hwf store now he hv
  · rw [group_refresh_trace, List.length_map, pyBatch_length]
    norm_num

/-- Closed instance of `C4_best_effort_update` on the spec's {A, B, C}
example: the store returns A and C and reports B unknown. -/
theorem C4_witness :
    worldABC.wf ∧
    (GWorld.group_refresh storeAC 3 worldABC).2.1 =
      some (.invalidParam "B") ∧
    ((GWorld.group_refresh storeAC 3 worldABC).1.getParam 0).map
      (fun p => p.value) = some (some "va") ∧
    ((GWorld.group_refresh storeAC 3 worldABC).1.getParam 2).map
      (fun p => p.value) = some (some "vc") ∧
    (GWorld.group_refresh storeAC 3 worldABC).1.getParam 1 =
      worldABC.getParam 1 := by
  refine ⟨by decide, ?_, ?_, ?_, ?_⟩
  · rw [(C4_best_effort_update worldABC storeAC 3 (by decide)).1.2 (by decide)]
    decide
  · exact (C4_best_effort_update worldABC storeAC 3 (by decide)).2.1
      ("A", 0) (by decide) "va" (by decide)
  · exact (C4_best_effort_update worldABC storeAC 3 (by decide)).2.1
      ("C", 2) (by decide) "vc" (by decide)
  · exact (C4_best_effort_update worldABC storeAC 3 (by decide)).2.2.1
      ("B", 1) (by decide) (by decide)

/-! ### Claim C6 -/

/-- C6: a group refresh issues exactly ⌈N/10⌉ fetch-many calls for N
members — each carrying at most 10 names, with the concatenation of the
batches equal to the full member-name list — and an empty group issues no
remote call at all while its refresh trivially succeeds. -/
theorem C6_batching (w : GWorld) (store : Store) (now : Int) :
    (GWorld.group_refresh store now w).2.2.length =
      (w.memberNames.length + 9) / 10 ∧
    (∀ c ∈ (GWorld.group_refresh store now w).2.2, c.names.length ≤ 10) ∧
    ((GWorld.group_refresh store now w).2.2.map RemoteCall.names).flatten =
      w.memberNames ∧
    (w.memberNames = [] →
      (GWorld.group_refresh store now w).2.2 = [] ∧
      (GWorld.group_refresh store now w).2.1 = none) := by
  refine ⟨?_, ?_, ?_, ?_⟩
  · rw [group_refresh_trace, List.length_map, pyBatch_length]
    norm_num
  · intro c hc
    rw [group_refresh_trace] at hc
    obtain ⟨b, hb, rfl⟩ := List.mem_map.mp hc
    exact pyBatch_mem_length hb
  · rw [group_refresh_trace, List.map_map]
    have hcomp : (RemoteCall.names ∘ fun b =>
        RemoteCall.getParameters b
          (w.memberValues.any (fun p => p.with_decryption))) =
        fun b : List String => b := rfl
    rw [hcomp, List.map_id', pyBatch_flatten (by omega)]
  · intro h
    constructor
    · rw [group_refresh_trace, h, pyBatch_nil]
      rfl
    · rw [group_refresh_err_none_iff, h]
      rfl

/-- Closed instance of `C6_batching`: a 25-member group issues exactly 3
calls of sizes 10, 10 and 5; the empty group issues none and succeeds. -/
theorem C6_witness :
    world25.memberNames.length = 25 ∧
    (GWorld.group_refresh storeEmpty 0 world25).2.2.length = 3 ∧
    ((GWorld.group_refresh storeEmpty 0 world25).2.2.map
      (fun c => c.names.length)) = [10, 10, 5] ∧
    worldEmpty.memberNames = [] ∧
    (GWorld.group_refresh storeEmpty 0 worldEmpty).2.2 = [] ∧
    (GWorld.group_refresh storeEmpty 0 worldEmpty).2.1 = none := by
  refine ⟨by decide, ?_, by decide, by decide, ?_, ?_⟩
  · rw [(C6_batching world25 storeEmpty 0).1]
    decide
  · exact ((C6_batching worldEmpty storeEmpty 0).2.2.2 (by decide)).1
  · exact ((C6_batching worldEmpty storeEmpty 0).2.2.2 (by decide)).2

/-! ### Claim C7 -/

/-- C7: calling `refresh()` on a grouped member delegates entirely to the
group's batched refresh: provided the store knows every member name, the
call succeeds and every sibling member's cached value is updated to the
store's current value, not only this key's. -/
theorem C7_delegation (w : GWorld) (store : Store) (now : Int) (i : Nat)
    (p : SSMParameter) (hwf : w.wf) (hp : w.getParam i = some p)
    (hg : p.in_group = true)
    (hall : ∀ n ∈ w.memberNames, (store n).isSome = true) :
    (GWorld.param_refresh store now w i).2.1 = none ∧
    ∀ e ∈ w.group.parameters, ∀ v, store e.1 = some v →
      (((GWorld.param_refresh store now w i).1.getParam e.2).map
        (fun q => q.value)) = some (some v) := by
  have hinv : invalidItems store w.memberNames = [] := by
    unfold invalidItems
    rw [List.filter_eq_nil]
    intro a ha hc
    have h2 := hall a ha
    rw [Option.isNone_iff_eq_none] at hc
    rw [hc] at h2
    cases h2
  have hge := @param_refresh_inner_grouped store now w i p hp hg
  have herr : (GWorld.param_refresh_inner store now w i).2.1 = none := by
    rw [hge]
    exact (group_refresh_err_none_iff store now w).mpr hinv
  constructor
  · rw [param_refresh_err_eq]
    exact herr
  · intro e he v hv
    obtain ⟨n, j⟩ := e
    rw [param_refresh_value_eq_inner store now w i herr j, hge,
      group_refresh_found hwf store now he hv]
    obtain ⟨pj, hpj⟩ := getParam_of_lt (wf_index_lt hwf he)
    rw [hpj]
    rfl

/-- Closed instance of `C7_delegation`: refreshing member B of {A, B, C}
updates the sibling members A and C as well. -/
theorem C7_witness :
    (GWorld.param_refresh storeABC 3 worldABC 1).2.1 = none ∧
    ((GWorld.param_refresh storeABC 3 worldABC 1).1.getParam 0).map
      (fun q => q.value) = some (some "va") ∧
    ((GWorld.param_refresh storeABC 3 worldABC 1).1.getParam 2).map
      (fun q => q.value) = some (some "vc") := by
  have h := C7_delegation worldABC storeABC 3 1
    ⟨⟨none, none⟩, "B", some "oldB", true, true⟩ (by decide) (by decide)
    (by decide) (by decide)
  exact ⟨h.1, h.2 ("A", 0) (by decide) "va" (by decide),
    h.2 ("C", 2) (by decide) "vc" (by decide)⟩

/-! ### Claim C5 -/

/-- C5: one call of a closure produced by `refresh_on_error` first invokes
the wrapped operation with the original arguments. When that first
invocation raises an error matching `error_class` and the forced refresh
does not itself raise, exactly one refresh happens, then the callback runs
exactly once (when one was supplied), then the operation is re-invoked once
with the retry keyword set true, and the final result — including a failure
of the retried call, which propagates unmodified — is exactly that second
invocation's result. In every case at most one refresh, one callback and
two invocations (one retry) occur. -/
theorem C5_retry_wrapper {α : Type} (store : Store) (now : Int) (w : GWorld)
    (i : Nat) (func : GWorld → Option Bool → Except PyError α)
    (isError : PyError → Bool) (has_callback : Bool) (kwarg0 : Option Bool) :
    ((refresh_on_error_call store now w i func isError has_callback
        kwarg0).2.2.head? = some (.call kwarg0)) ∧
    ((refresh_on_error_call store now w i func isError has_callback
        kwarg0).2.2.count WrapEvent.refreshed ≤ 1) ∧
    ((refresh_on_error_call store now w i func isError has_callback
        kwarg0).2.2.count WrapEvent.callback ≤ 1) ∧
    ((refresh_on_error_call store now w i func isError has_callback
        kwarg0).2.2.countP
          (fun ev => match ev with | .call _ => true | _ => false) ≤ 2) ∧
    (∀ a, func w kwarg0 = .ok a →
      refresh_on_error_call store now w i func isError has_callback kwarg0 =
        (w, .ok a, [.call kwarg0])) ∧
    (∀ e, func w kwarg0 = .error e → isError e = false →
      refresh_on_error_call store now w i func isError has_callback kwarg0 =
        (w, .error e, [.call kwarg0])) ∧
    (∀ e, func w kwarg0 = .error e → isError e = true →
      (GWorld.param_refresh store now w i).2.1 = none →
      refresh_on_error_call store now w i func isError has_callback kwarg0 =
        ((GWorld.param_refresh store now w i).1,
         func (GWorld.param_refresh store now w i).1 (some true),
         [WrapEvent.call kwarg0, .refreshed] ++
           (if has_callback then [WrapEvent.callback] else []) ++
           [.call (some true)])) := by
  unfold refresh_on_error_call
  cases hf : func w kwarg0 with
  | ok a =>
    refine ⟨rfl, by simp [List.count_cons], by simp [List.count_cons],
      by simp [List.countP_cons], ?_, ?_, ?_⟩
    · intro a' ha'
      rw [Except.ok.inj ha']
    · intro e he
      exact Except.noConfusion he
    · intro e he
      exact Except.noConfusion he
  | error e =>
    cases hie : isError e with
    | false =>
      simp only [hie, Bool.false_eq_true, if_false]
      refine ⟨rfl, by simp [List.count_cons], by simp [List.count_cons],
        by simp [List.countP_cons], ?_, ?_, ?_⟩
      · intro a' ha'
        exact Except.noConfusion ha'
      · intro e' he' _
        rw [Except.error.inj he']
      · intro e' he' htrue _
        rw [← Except.error.inj he'] at htrue
        rw [hie] at htrue
        cases htrue
    | true =>
      simp only [hie, if_true]
      cases hr : (GWorld.param_refresh store now w i).2.1 with
      | some e2 =>
        refine ⟨rfl, by simp [List.count_cons], by simp [List.count_cons],
          by simp [List.countP_cons], ?_, ?_, ?_⟩
        · intro a' ha'
          exact Except.noConfusion ha'
        · intro e' he' hfalse
          rw [← Except.error.inj he'] at hfalse
          rw [hie] at hfalse
          cases hfalse
        · intro e' he' _ hnone
          cases hnone
      | none =>
        refine ⟨?_, ?_, ?_, ?_, ?_, ?_, ?_⟩
        · cases has_callback <;> rfl
        · cases has_callback <;> simp [List.count_cons]
        · cases has_callback <;> simp [List.count_cons]
        · cases has_callback <;> simp [List.countP_cons]
        · intro a' ha'
          exact Except.noConfusion ha'
        · intro e' he' hfalse
          rw [← Except.error.inj he'] at hfalse
          rw [hie] at hfalse
          cases hfalse
        · intro e' _ _ _
          rfl

/-- Closed instance of `C5_retry_wrapper`: an operation that fails on the
first call and succeeds with the retry flag set, wrapped around the
standalone `key` parameter, causes one refresh, one callback, one retried
invocation observing the flag, and a final success. -/
theorem C5_witness :
    funcFlaky worldStandalone none =
      .error (.invalidParam "stale value rejected") ∧
    (GWorld.param_refresh storeKey 5 worldStandalone 0).2.1 = none ∧
    refresh_on_error_call storeKey 5 worldStandalone 0 funcFlaky
        (fun _ => true) true none =
      ((GWorld.param_refresh storeKey 5 worldStandalone 0).1, .ok 42,
       [WrapEvent.call none, .refreshed, .callback, .call (some true)]) := by
  refine ⟨by decide, by decide, ?_⟩
  have h := (C5_retry_wrapper storeKey 5 worldStandalone 0 funcFlaky
    (fun _ => true) true none).2.2.2.2.2.2
  rw [h (.invalidParam "stale value rejected") (by decide) (by decide)
    (by decide)]
  decide

/-! ### Claim C10 -/

/-- Inversion of a successful `SSMParameterGroup.parameter` call. -/
theorem parameter_ok_inv {w : GWorld} {c : ParamCall} {w' : GWorld}
    {iNew : Nat} (h : GWorld.parameter w c = .ok (w', iNew)) :
    c.max_age_kw = none ∧ c.param_name ≠ "" ∧ iNew = w.params.length ∧
    w' = { params := w.params ++
             [⟨⟨none, c.max_age_pos⟩, c.param_name, none,
               c.with_decryption_kw.getD w.group.with_decryption, true⟩],
           group := { w.group with parameters := (dictSet
             w.group.parameters c.param_name w.params.length) } } := by
  unfold GWorld.parameter at h
  by_cases hkw : c.max_age_kw.isSome
  · rw [if_pos hkw] at h
    cases h
  · rw [if_neg hkw] at h
    unfold SSMParameter.mkParam at h
    by_cases hname : c.param_name = ""
    · rw [if_pos hname] at h
      cases h
    · rw [if_neg hname] at h
      have h2 := Except.ok.inj h
      refine ⟨Option.not_isSome_iff_eq_none.mp hkw, hname, ?_, ?_⟩
      · exact (congrArg Prod.snd h2).symm
      · exact (congrArg Prod.fst h2).symm

/-- A successful `parameter` call preserves world well-formedness. -/
theorem parameter_wf {w : GWorld} {c : ParamCall} {w' : GWorld} {iNew : Nat}
    (hwf : w.wf) (h : GWorld.parameter w c = .ok (w', iNew)) : w'.wf := by
  obtain ⟨-, -, -, hw⟩ := parameter_ok_inv h
  subst hw
  refine ⟨dictSet_keys_nodup _ hwf.1, ?_, ?_⟩
  · apply dictSet_values_nodup hwf.2.1
    intro hc
    obtain ⟨e, he, he2⟩ := List.mem_map.mp hc
    have := wf_index_lt hwf he
    omega
  · intro e he
    rcases mem_dictSet he with h1 | h1
    · subst h1
      simp only
      rw [List.get?_concat_length]
      rfl
    · have h3 := hwf.2.2 e h1
      have hlt := wf_index_lt hwf h1
      simp only
      rw [List.get?_append hlt]
      exact h3

/-- C10: registering a group member under an already-registered name
silently replaces it: the dict maps the name to the fresh object (keys stay
unique, so exactly one member per name), the displaced old object survives
unchanged on the heap — back-reference to the group included — and a
subsequent group refresh never touches it again, while the newest object for
the name is the one the refresh updates. -/
theorem C10_replacement (w : GWorld) (c : ParamCall) (w' : GWorld)
    (iNew : Nat) (n : String) (iOld : Nat)
    (hwf : w.wf) (hold : (n, iOld) ∈ w.group.parameters)
    (hc : c.param_name = n)
    (hcall : GWorld.parameter w c = .ok (w', iNew)) :
    dictGet w'.group.parameters n = some iNew ∧
    iNew = w.params.length ∧
    iOld ≠ iNew ∧
    (w'.group.parameters.map (fun e => e.1)).Nodup ∧
    w'.getParam iOld = w.getParam iOld ∧
    (∀ store now,
      (GWorld.group_refresh store now w').1.getParam iOld =
        w'.getParam iOld) ∧
    (∀ store now v, store n = some v →
      ((GWorld.group_refresh store now w').1.getParam iNew).map
        (fun q => q.value) = some (some v)) := by
  subst hc
  obtain ⟨hkw, hname, hi, hw⟩ := parameter_ok_inv hcall
  have hwf' : w'.wf := parameter_wf hwf hcall
  have hlt := wf_index_lt hwf hold
  have hnotold : ∀ x ∈ w'.group.parameters, x.2 ≠ iOld := by
    rw [hw]
    intro x hx hxeq
    simp only at hx
    rcases mem_dictSet hx with h1 | h1
    · rw [h1] at hxeq
      simp only at hxeq
      omega
    · obtain ⟨m, j⟩ := x
      simp only at hxeq
      subst hxeq
      have hmn : m = c.param_name := wf_index_inj hwf h1 hold
      subst hmn
      have := dictSet_self_key_value hwf.1 hx
      omega
  have hdg : dictGet w'.group.parameters c.param_name = some iNew := by
    rw [hw]
    simp only
    rw [dictGet_dictSet_self, hi]
  have hmemNew : (c.param_name, iNew) ∈ w'.group.parameters :=
    mem_of_dictGet_eq_some hdg
  have hgetNew : w'.getParam iNew =
      some ⟨⟨none, c.max_age_pos⟩, c.param_name, none,
        c.with_decryption_kw.getD w.group.with_decryption, true⟩ := by
    rw [hw, hi]
    unfold GWorld.getParam
    simp only
    rw [List.get?_concat_length]
  have hgetOld : w'.getParam iOld = w.getParam iOld := by
    rw [hw]
    unfold GWorld.getParam
    simp only
    rw [List.get?_append hlt]
  refine ⟨hdg, hi, by omega, hwf'.1, hgetOld, ?_, ?_⟩
  · intro store now
    exact group_refresh_unlisted store now w' iOld hnotold
  · intro store now v hv
    rw [group_refresh_found hwf' store now hmemNew hv, hgetNew]
    rfl

/-- Closed instance of `C10_replacement`: re-registering `a` in
`worldGrouped` yields `worldGrouped2`; a refresh against a store knowing `a`
updates only the new object at index 1, while the displaced object at index
0 keeps its old value. -/
theorem C10_witness :
    GWorld.parameter worldGrouped
        { param_name := "a", max_age_pos := none, max_age_kw := none,
          with_decryption_kw := none } = .ok (worldGrouped2, 1) ∧
    dictGet worldGrouped2.group.parameters "a" = some 1 ∧
    worldGrouped2.getParam 0 = worldGrouped.getParam 0 ∧
    (GWorld.group_refresh storeLowerA 7 worldGrouped2).1.getParam 0 =
      worldGrouped2.getParam 0 ∧
    ((GWorld.group_refresh storeLowerA 7 worldGrouped2).1.getParam 1).map
      (fun q => q.value) = some (some "new") := by
  have h := C10_replacement worldGrouped
    { param_name := "a", max_age_pos := none, max_age_kw := none,
      with_decryption_kw := none } worldGrouped2 1 "a" 0
    (by decide) (by decide) (by decide) (by decide)
  exact ⟨by decide, h.1, h.2.2.2.2.1, h.2.2.2.2.2.1 storeLowerA 7,
    h.2.2.2.2.2.2 storeLowerA 7 "new" (by decide)⟩

end SSMCache
